import Mathlib

/-!
# Verification of the client-side image/PDF tool facades

A shallow embedding of the transformation logic of `js/image-tools.js`
(the `ImageTools` and `PDFTools` classes).  PDF documents are modelled as
lists of pages (a page is an abstract token); a source file either decodes
to a document or fails to decode, mirroring `PDFLib.PDFDocument.load`
which throws on undecodable input.  Image files either decode to a raster
surface with natural dimensions or fail to load.  Dimension arithmetic is
modelled over the rationals (exact real-valued semantics of the
JavaScript numeric expressions).
-/

/-- A page of a PDF document, an abstract token. -/
abbrev Page := Nat

/-- A source file handed to the PDF tools: either it decodes to a PDF
document (an ordered list of pages) or decoding fails. -/
inductive PDFFile where
  | ok (doc : List Page)
  | bad
deriving DecidableEq

/-- `PDFLib.PDFDocument.load`: returns the decoded document, or fails. -/
def PDFFile.load : PDFFile → Option (List Page)
  | .ok doc => some doc
  | .bad => none

/-- The errors the PDF facade can raise.  `loadError` stands for the
exception thrown by `PDFLib.PDFDocument.load`; `copyError` for the
exception thrown by `copyPages` on an out-of-range index; the other three
are the `throw new Error(...)` sites inside `splitPDF`. -/
inductive PDFError where
  | loadError
  | invalidRange
  | noPagesSelected
  | invalidMethod
  | copyError
deriving DecidableEq

namespace PDFTools

/-- The loop body accumulator of `mergePDFs`: `acc` is the destination
document built so far, `total` the running `totalPages` counter.  Each
iteration decodes the next file (failing the whole operation if the load
throws), appends all of its pages in order, and adds its page count. -/
def mergeGo : List PDFFile → List Page → Nat → Except PDFError (List Page × Nat)
  | [], acc, total => .ok (acc, total)
  | f :: fs, acc, total =>
    match f.load with
    | none => .error .loadError
    | some pdf => mergeGo fs (acc ++ pdf) (total + pdf.length)

/-- `PDFTools.mergePDFs(files)`: creates an empty destination document,
appends every page of every input file in order, and returns the merged
document together with the total page count. -/
def mergePDFs (files : List PDFFile) : Except PDFError (List Page × Nat) :=
  mergeGo files [] 0

/-- The options record passed to `splitPDF`.  A `none` field models a
JavaScript `undefined`. -/
structure SplitOptions where
  start : Option Int
  stop : Option Int
  selectedPages : Option (List Int)
deriving DecidableEq

/-- JavaScript `x || d` for an optional numeric value: `undefined` and
`0` are falsy, any other number is returned as is. -/
def jsOr (x : Option Int) (d : Int) : Int :=
  match x with
  | none => d
  | some v => if v = 0 then d else v

/-- The `switch (splitMethod)` block of `splitPDF`: computes the list of
page-index sequences (zero-based) that the split will extract, or raises
the corresponding parameter error. -/
def computePageIndices (totalPages : Nat) (splitMethod : String)
    (options : SplitOptions) : Except PDFError (List (List Int)) :=
  if splitMethod = "all" then
    .ok ((List.range totalPages).map fun i => [Int.ofNat i])
  else if splitMethod = "range" then
    let start : Int := max 1 (jsOr options.start 1) - 1
    let stop : Int := min (totalPages : Int) (jsOr options.stop totalPages) - 1
    if start > stop then .error .invalidRange
    else .ok [(List.range ((stop - start).toNat + 1)).map fun i => start + Int.ofNat i]
  else if splitMethod = "custom" then
    match options.selectedPages with
    | none => .error .noPagesSelected
    | some sel =>
      if sel.length = 0 then .error .noPagesSelected
      else .ok [(sel.map fun p => p - 1).insertionSort (· ≤ ·)]
  else .error .invalidMethod

/-- `pdf-lib`'s `copyPages(srcDoc, indices)`: copies the pages at the
given zero-based indices, in the order of the index list; throws if an
index is out of the source document's range. -/
def copyPages (doc : List Page) (indices : List Int) : Option (List Page) :=
  indices.mapM fun i => if 0 ≤ i then doc[i.toNat]? else none

/-- The result of `splitPDF`: the list of output documents and the source
document's total page count. -/
structure SplitResult where
  files : List (List Page)
  totalPages : Nat
deriving DecidableEq

/-- `PDFTools.splitPDF(file, splitMethod, options)`: decodes the source,
computes the page-index sequences for the chosen method, and produces one
new document per sequence, each holding exactly the pages at those
indices in sequence order. -/
def splitPDF (file : PDFFile) (splitMethod : String) (options : SplitOptions) :
    Except PDFError SplitResult :=
  match file.load with
  | none => .error .loadError
  | some pdf =>
    let totalPages := pdf.length
    match computePageIndices totalPages splitMethod options with
    | .error e => .error e
    | .ok pageIndices =>
      match pageIndices.mapM (copyPages pdf) with
      | none => .error .copyError
      | some splitFiles => .ok ⟨splitFiles, totalPages⟩

/-- `PDFTools.getPDFPageCount(file)`: the page count of the decoded
document, or the sentinel `0` when decoding fails (the catch branch). -/
def getPDFPageCount (file : PDFFile) : Nat :=
  match file.load with
  | some pdf => pdf.length
  | none => 0

end PDFTools

/-- A source file handed to the image tools: a name plus, when the file
decodes as an image, the natural (width, height) of the decoded surface;
`none` models an `img.onerror` outcome. -/
structure SrcImage where
  name : String
  surface : Option (Nat × Nat)
deriving DecidableEq

namespace ImageTools

/-- The JavaScript regex replace `name.replace(/\.[^\/.]+$/, "")`: strips
a final `.ext` where `ext` is one or more characters none of which is a
dot or a slash; leaves the name unchanged when no such suffix exists. -/
def stripExt (name : String) : String :=
  let rcs := name.toList.reverse
  let ext := rcs.takeWhile fun c => c != '.' && c != '/'
  match rcs.drop ext.length with
  | '.' :: rest => if ext.isEmpty then name else String.mk rest.reverse
  | _ => name

/-- The output of `convertToWebP`: the produced file's name and media
type, the raster surface dimensions it was encoded from, and the quality
parameter passed to the encoder. -/
structure WebPOutput where
  name : String
  width : Nat
  height : Nat
  quality : ℚ
  type : String
deriving DecidableEq

/-- `ImageTools.convertToWebP(file, quality, lossless)`: decodes the
source to a surface of its natural size, re-encodes it as WebP at
`quality` (forced to the maximum `1` when `lossless` is true), and names
the output by replacing the source extension with `.webp`; rejects with
"Failed to load image" when the source cannot be decoded. -/
def convertToWebP (file : SrcImage) (quality : ℚ) (lossless : Bool) :
    Except String WebPOutput :=
  match file.surface with
  | none => .error "Failed to load image"
  | some (w, h) =>
    let qualityParam : ℚ := if lossless then 1 else quality
    .ok { name := stripExt file.name ++ ".webp", width := w, height := h,
          quality := qualityParam, type := "image/webp" }

/-- JavaScript truthiness of an optional numeric argument: `undefined`
and `0` are falsy. -/
def truthy (x : Option ℚ) : Bool :=
  match x with
  | none => false
  | some v => v != 0

/-- The dimension computation of `ImageTools.resizeImage` (lines 95-114):
given the decoded source's natural size, the requested `width`/`height`
(possibly `undefined`) and the aspect-ratio flag, returns the
`(newWidth, newHeight)` pair the canvas is sized to; rejects with
"Failed to load image" when the source cannot be decoded. -/
def resizeImage (file : SrcImage) (width height : Option ℚ)
    (maintainAspectRatio : Bool) : Except String (Option ℚ × Option ℚ) :=
  match file.surface with
  | none => .error "Failed to load image"
  | some (w, h) =>
    let imgWidth : ℚ := w
    let imgHeight : ℚ := h
    if maintainAspectRatio then
      let aspectRatio := imgWidth / imgHeight
      if truthy width && !truthy height then
        .ok (width, some (width.getD 0 / aspectRatio))
      else if truthy height && !truthy width then
        .ok (some (height.getD 0 * aspectRatio), height)
      else if truthy width && truthy height then
        let widthRatio := width.getD 0 / imgWidth
        let heightRatio := height.getD 0 / imgHeight
        let ratio := min widthRatio heightRatio
        .ok (some (imgWidth * ratio), some (imgHeight * ratio))
      else .ok (width, height)
    else .ok (width, height)

end ImageTools

/-! ## General helper lemmas -/

/-- `mapM` over `Option` succeeds pointwise. -/
theorem mapM_some_of_forall {α β : Type} (g : α → Option β) (f : α → β)
    (L : List α) (h : ∀ x ∈ L, g x = some (f x)) : L.mapM g = some (L.map f) := by
  induction L with
  | nil => rfl
  | cons x xs ih =>
    rw [List.mapM_cons, h x (List.mem_cons_self x xs),
      ih fun y hy => h y (List.mem_cons_of_mem x hy)]
    rfl

/-- `mapM` over `Option` fails as soon as one element fails. -/
theorem mapM_none_of_exists {α β : Type} (g : α → Option β)
    (L : List α) (h : ∃ x ∈ L, g x = none) : L.mapM g = none := by
  induction L with
  | nil => simp at h
  | cons x xs ih =>
    rw [List.mapM_cons]
    rcases h with ⟨y, hy, hgy⟩
    rcases List.mem_cons.mp hy with rfl | hy'
    · rw [hgy]; rfl
    · cases hgx : g x
      · rfl
      · rw [ih ⟨y, hy', hgy⟩]; rfl

/-- `copyPages` succeeds on an all-in-bounds index list and returns the
pages at those indices, in index-list order. -/
theorem copyPages_eq (doc : List Page) (l : List Int)
    (h : ∀ i ∈ l, 0 ≤ i ∧ i.toNat < doc.length) :
    PDFTools.copyPages doc l = some (l.map fun i => doc.getD i.toNat 0) := by
  apply mapM_some_of_forall
  intro i hi
  rcases h i hi with ⟨h0, hlt⟩
  rw [if_pos h0, List.getElem?_eq_getElem hlt, List.getD_eq_getElem doc 0 hlt]

/-- Reading every position of a list in order reproduces the list. -/
theorem map_getD_range (doc : List Page) :
    (List.range doc.length).map (fun i => doc.getD i 0) = doc := by
  apply List.ext_getElem
  · simp
  · intro n h1 h2
    rw [List.getElem_map, List.getElem_range, List.getD_eq_getElem doc 0 h2]

/-- Reading `k` consecutive positions starting at `a` yields the
corresponding contiguous slice. -/
theorem map_getD_range_add (doc : List Page) (a k : Nat) (hak : a + k ≤ doc.length) :
    (List.range k).map (fun i => doc.getD (a + i) 0) = (doc.drop a).take k := by
  apply List.ext_getElem
  · simp; omega
  · intro n h1 h2
    have hn : n < k := by simpa using h1
    have hb : a + n < doc.length := by omega
    rw [List.getElem_map, List.getElem_range, List.getD_eq_getElem doc 0 hb,
      List.getElem_take, List.getElem_drop]

/-! ## The merge loop -/

/-- When every input decodes, the merge loop appends all pages in order
and totals the page counts. -/
theorem mergeGo_ok (files : List PDFFile) :
    ∀ (docs : List (List Page)) (acc : List Page) (total : Nat),
      files.mapM PDFFile.load = some docs →
      PDFTools.mergeGo files acc total =
        .ok (acc ++ docs.flatten, total + (docs.map List.length).sum) := by
  induction files with
  | nil =>
    intro docs acc total h
    have hd : ([] : List (List Page)) = docs :=
      Option.some.inj (show (some [] : Option (List (List Page))) = some docs from h)
    subst hd
    simp [PDFTools.mergeGo]
  | cons f fs ih =>
    intro docs acc total h
    rw [List.mapM_cons] at h
    cases hf : f.load with
    | none => rw [hf] at h; simp at h
    | some d =>
      rw [hf] at h
      cases hfs : fs.mapM PDFFile.load with
      | none => rw [hfs] at h; simp at h
      | some ds =>
        rw [hfs] at h
        simp at h
        subst h
        show PDFTools.mergeGo (f :: fs) acc total = _
        rw [show PDFTools.mergeGo (f :: fs) acc total
            = PDFTools.mergeGo fs (acc ++ d) (total + d.length) by
          simp [PDFTools.mergeGo, hf]]
        rw [ih ds (acc ++ d) (total + d.length) hfs]
        simp [List.append_assoc, Nat.add_assoc]

/-- When some input fails to decode, the merge loop fails. -/
theorem mergeGo_none (files : List PDFFile) :
    ∀ (acc : List Page) (total : Nat),
      files.mapM PDFFile.load = none →
      PDFTools.mergeGo files acc total = .error .loadError := by
  induction files with
  | nil =>
    intro acc total h
    exact Option.noConfusion
      (show (some [] : Option (List (List Page))) = none from h)
  | cons f fs ih =>
    intro acc total h
    rw [List.mapM_cons] at h
    cases hf : f.load with
    | none => simp [PDFTools.mergeGo, hf]
    | some d =>
      rw [hf] at h
      cases hfs : fs.mapM PDFFile.load with
      | none =>
        rw [show PDFTools.mergeGo (f :: fs) acc total
            = PDFTools.mergeGo fs (acc ++ d) (total + d.length) by
          simp [PDFTools.mergeGo, hf]]
        exact ih _ _ hfs
      | some ds => rw [hfs] at h; simp at h

/-! ## Case analysis of the split-method switch -/

namespace PDFTools

/-- The `'all'` arm of the switch. -/
theorem computePageIndices_all (totalPages : Nat) (options : SplitOptions) :
    computePageIndices totalPages "all" options =
      .ok ((List.range totalPages).map fun i => [Int.ofNat i]) := by
  unfold computePageIndices
  rw [if_pos rfl]

/-- The `'range'` arm rejects an inverted clamped range. -/
theorem computePageIndices_range_err (totalPages : Nat) (options : SplitOptions)
    (h : min (totalPages : Int) (jsOr options.stop totalPages) < max 1 (jsOr options.start 1)) :
    computePageIndices totalPages "range" options = .error .invalidRange := by
  unfold computePageIndices
  rw [if_neg (by decide), if_pos rfl]
  simp only []
  rw [if_pos (by omega)]

/-- The `'range'` arm extracts the consecutive zero-based index sequence
from the clamped start to the clamped end. -/
theorem computePageIndices_range_ok (totalPages : Nat) (options : SplitOptions)
    (h : max 1 (jsOr options.start 1) ≤ min (totalPages : Int) (jsOr options.stop totalPages)) :
    computePageIndices totalPages "range" options =
      .ok [(List.range
              (((min (totalPages : Int) (jsOr options.stop totalPages) - 1)
                - (max 1 (jsOr options.start 1) - 1)).toNat + 1)).map
            fun i => (max 1 (jsOr options.start 1) - 1) + Int.ofNat i] := by
  unfold computePageIndices
  rw [if_neg (by decide), if_pos rfl]
  simp only []
  rw [if_neg (by omega)]

/-- The `'custom'` arm rejects an absent or empty selection. -/
theorem computePageIndices_custom_err (totalPages : Nat) (options : SplitOptions)
    (h : options.selectedPages = none ∨ options.selectedPages = some []) :
    computePageIndices totalPages "custom" options = .error .noPagesSelected := by
  unfold computePageIndices
  rw [if_neg (by decide), if_neg (by decide), if_pos rfl]
  rcases h with h | h <;> rw [h]
  rfl

/-- The `'custom'` arm converts the selection to zero-based indices and
sorts it ascending. -/
theorem computePageIndices_custom_ok (totalPages : Nat) (options : SplitOptions)
    (sel : List Int) (hsel : options.selectedPages = some sel) (hne : sel ≠ []) :
    computePageIndices totalPages "custom" options =
      .ok [(sel.map fun p => p - 1).insertionSort (· ≤ ·)] := by
  unfold computePageIndices
  rw [if_neg (by decide), if_neg (by decide), if_pos rfl, hsel]
  simp only []
  rw [if_neg (by simpa using hne)]

/-- The default arm of the switch. -/
theorem computePageIndices_other (totalPages : Nat) (m : String) (options : SplitOptions)
    (h1 : m ≠ "all") (h2 : m ≠ "range") (h3 : m ≠ "custom") :
    computePageIndices totalPages m options = .error .invalidMethod := by
  unfold computePageIndices
  rw [if_neg h1, if_neg h2, if_neg h3]

/-! ## Reduction of `splitPDF` through its stages -/

/-- On a decodable source, `splitPDF` propagates a switch error. -/
theorem splitPDF_of_indices_err (doc : List Page) (m : String) (options : SplitOptions)
    (e : PDFError) (h : computePageIndices doc.length m options = .error e) :
    splitPDF (.ok doc) m options = .error e := by
  unfold splitPDF
  simp [PDFFile.load, h]

/-- On a decodable source, when every computed sequence copies
successfully, `splitPDF` returns one output document per sequence. -/
theorem splitPDF_of_indices_ok (doc : List Page) (m : String) (options : SplitOptions)
    (l : List (List Int)) (h : computePageIndices doc.length m options = .ok l)
    (r : List (List Page)) (hr : l.mapM (copyPages doc) = some r) :
    splitPDF (.ok doc) m options = .ok ⟨r, doc.length⟩ := by
  have hr' : List.mapM.loop (copyPages doc) l [] = some r := hr
  unfold splitPDF
  simp [PDFFile.load, h, hr, hr']

/-- On a decodable source, a failing page copy surfaces as `copyError`. -/
theorem splitPDF_of_copy_fail (doc : List Page) (m : String) (options : SplitOptions)
    (l : List (List Int)) (h : computePageIndices doc.length m options = .ok l)
    (hr : l.mapM (copyPages doc) = none) :
    splitPDF (.ok doc) m options = .error .copyError := by
  have hr' : List.mapM.loop (copyPages doc) l [] = none := hr
  unfold splitPDF
  simp [PDFFile.load, h, hr, hr']

end PDFTools

namespace PDFTools

/-- Reading each position of `doc` gives back `doc`, one singleton per
page. -/
theorem map_singleton_eq (doc : List Page) :
    doc.map (fun p => [p]) = (List.range doc.length).map fun i => [doc.getD i 0] := by
  apply List.ext_getElem
  · simp
  · intro n h1 h2
    rw [List.getElem_map, List.getElem_map, List.getElem_range,
      List.getD_eq_getElem doc 0 (by simpa using h1)]

/-- `splitPDF` with method `'all'` on a decodable `doc`: one output per
page, in page order, each holding exactly that page. -/
theorem splitPDF_all_eq (doc : List Page) (options : SplitOptions) :
    splitPDF (.ok doc) "all" options = .ok ⟨doc.map fun p => [p], doc.length⟩ := by
  apply splitPDF_of_indices_ok doc "all" options _ (computePageIndices_all doc.length options)
  have h1 : ∀ x ∈ (List.range doc.length).map fun i => [Int.ofNat i],
      copyPages doc x = some (x.map fun i => doc.getD i.toNat 0) := by
    intro x hx
    rcases List.mem_map.mp hx with ⟨i, hi, rfl⟩
    apply copyPages_eq
    intro j hj
    have hj' : j = Int.ofNat i := by simpa using hj
    subst hj'
    have hi' : i < doc.length := List.mem_range.mp hi
    constructor
    · exact Int.ofNat_nonneg i
    · simpa using hi'
  rw [mapM_some_of_forall (copyPages doc) (fun x => x.map fun i => doc.getD i.toNat 0) _ h1]
  congr 1
  rw [List.map_map, map_singleton_eq]
  apply List.map_congr_left
  intro i _
  simp [Function.comp]

/-- `splitPDF` with method `'range'` on a decodable `doc`, when the
clamped 1-based start does not exceed the clamped 1-based end: a single
output holding the contiguous slice of source pages from the clamped
start through the clamped end, in source order. -/
theorem splitPDF_range_eq (doc : List Page) (options : SplitOptions)
    (h : max 1 (jsOr options.start 1) ≤ min (doc.length : Int) (jsOr options.stop doc.length)) :
    splitPDF (.ok doc) "range" options =
      .ok ⟨[(doc.drop (max 1 (jsOr options.start 1) - 1).toNat).take
            ((min (doc.length : Int) (jsOr options.stop doc.length)
              - max 1 (jsOr options.start 1)).toNat + 1)], doc.length⟩ := by
  have h1 : (1 : Int) ≤ max 1 (jsOr options.start 1) := le_max_left _ _
  have h2 : min (doc.length : Int) (jsOr options.stop doc.length) ≤ (doc.length : Int) :=
    min_le_left _ _
  apply splitPDF_of_indices_ok doc "range" options _
    (computePageIndices_range_ok doc.length options h)
  set cs : Int := max 1 (jsOr options.start 1) with hcs
  set ce : Int := min (doc.length : Int) (jsOr options.stop doc.length) with hce
  set k : Nat := ((ce - 1) - (cs - 1)).toNat + 1 with hk
  have hb : ∀ i ∈ (List.range k).map fun i : Nat => (cs - 1) + Int.ofNat i,
      0 ≤ i ∧ i.toNat < doc.length := by
    intro i hi
    rcases List.mem_map.mp hi with ⟨j, hj, rfl⟩
    have hj' : j < k := List.mem_range.mp hj
    simp only [Int.ofNat_eq_natCast]
    omega
  have hcopy : copyPages doc ((List.range k).map fun i : Nat => (cs - 1) + Int.ofNat i)
      = some ((doc.drop (cs - 1).toNat).take ((ce - cs).toNat + 1)) := by
    rw [copyPages_eq doc _ hb]
    congr 1
    rw [List.map_map]
    have hfun : ∀ j ∈ List.range k,
        ((fun i : Int => doc.getD i.toNat 0) ∘ fun i : Nat => (cs - 1) + Int.ofNat i) j
          = doc.getD ((cs - 1).toNat + j) 0 := by
      intro j _
      simp only [Function.comp, Int.ofNat_eq_natCast]
      congr 1
      omega
    rw [List.map_congr_left hfun, map_getD_range_add doc ((cs - 1).toNat) k (by omega)]
    congr 1
    omega
  have hm := mapM_some_of_forall (copyPages doc)
    (fun _ => (doc.drop (cs - 1).toNat).take ((ce - cs).toNat + 1))
    [(List.range k).map fun i : Nat => (cs - 1) + Int.ofNat i]
    (by intro y hy
        have hy' : y = (List.range k).map fun i : Nat => (cs - 1) + Int.ofNat i := by
          simpa using hy
        subst hy'
        exact hcopy)
  simpa using hm

/-- `splitPDF` with method `'custom'` on a decodable `doc` and a
non-empty in-bounds selection: a single output holding the selected
pages, at the zero-based selection sorted ascending. -/
theorem splitPDF_custom_eq (doc : List Page) (options : SplitOptions) (sel : List Int)
    (hsel : options.selectedPages = some sel) (hne : sel ≠ [])
    (hb : ∀ p ∈ sel, 1 ≤ p ∧ p ≤ (doc.length : Int)) :
    splitPDF (.ok doc) "custom" options =
      .ok ⟨[((sel.map fun p => p - 1).insertionSort (· ≤ ·)).map fun i => doc.getD i.toNat 0],
           doc.length⟩ := by
  apply splitPDF_of_indices_ok doc "custom" options _
    (computePageIndices_custom_ok doc.length options sel hsel hne)
  set zs := (sel.map fun p => p - 1).insertionSort (· ≤ ·) with hzs
  have hbz : ∀ i ∈ zs, 0 ≤ i ∧ i.toNat < doc.length := by
    intro i hi
    have hperm : zs.Perm (sel.map fun p => p - 1) := List.perm_insertionSort _ _
    have hmem : i ∈ sel.map fun p => p - 1 := hperm.mem_iff.mp hi
    rcases List.mem_map.mp hmem with ⟨p, hp, rfl⟩
    rcases hb p hp with ⟨hp1, hp2⟩
    omega
  have hcopy := copyPages_eq doc zs hbz
  have hm := mapM_some_of_forall (copyPages doc)
    (fun _ => zs.map fun i => doc.getD i.toNat 0) [zs]
    (by intro y hy
        have hy' : y = zs := by simpa using hy
        subst hy'
        exact hcopy)
  simpa using hm

/-- `splitPDF` with method `'custom'` and a non-empty selection never
raises a parameter error: it either succeeds or fails inside the page
copy. -/
theorem splitPDF_custom_not_param (doc : List Page) (options : SplitOptions) (sel : List Int)
    (hsel : options.selectedPages = some sel) (hne : sel ≠ []) :
    splitPDF (.ok doc) "custom" options = .error .copyError
    ∨ ∃ r, splitPDF (.ok doc) "custom" options = .ok ⟨r, doc.length⟩ := by
  have hidx := computePageIndices_custom_ok doc.length options sel hsel hne
  cases hm : [(sel.map fun p => p - 1).insertionSort (· ≤ ·)].mapM (copyPages doc) with
  | none => exact Or.inl (splitPDF_of_copy_fail _ _ _ _ hidx hm)
  | some r => exact Or.inr ⟨r, splitPDF_of_indices_ok _ _ _ _ hidx r hm⟩

/-- `splitPDF` on an undecodable source propagates the load failure. -/
theorem splitPDF_bad (m : String) (options : SplitOptions) :
    splitPDF .bad m options = .error .loadError := rfl

end PDFTools

/-! ## Claims -/

/-- C1: merging an ordered sequence of decodable PDF files yields the
in-order concatenation of their pages (each input's pages in original
order, every earlier input's pages before every later input's) and
reports a total page count equal to the sum of the inputs' page counts;
if any input fails to decode, the whole merge fails with the load error
and no partial result is returned. -/
theorem merge_concat_pages (files : List PDFFile) :
    (∀ docs : List (List Page), files.mapM PDFFile.load = some docs →
      PDFTools.mergePDFs files = .ok (docs.flatten, (docs.map List.length).sum))
    ∧ (files.mapM PDFFile.load = none →
      PDFTools.mergePDFs files = .error .loadError) := by
  constructor
  · intro docs h
    have hgo := mergeGo_ok files docs [] 0 h
    simpa [PDFTools.mergePDFs] using hgo
  · intro h
    exact mergeGo_none files [] 0 h

/-- Witness for C1 at concrete inputs: a 2-page and a 3-page document
merge into 5 pages in order, and merging aborts when an input is
undecodable. -/
theorem merge_concat_pages_witness :
    PDFTools.mergePDFs [.ok [1, 2], .ok [3, 4, 5]] = .ok ([1, 2, 3, 4, 5], 5)
    ∧ PDFTools.mergePDFs [.ok [1, 2], .bad] = .error .loadError := by
  constructor
  · exact ((merge_concat_pages [.ok [1, 2], .ok [3, 4, 5]]).1 [[1, 2], [3, 4, 5]] rfl).trans rfl
  · exact (merge_concat_pages [.ok [1, 2], .bad]).2 rfl

/-- C10: merging the empty sequence of files does not fail: it returns a
document with zero pages and a total page count of 0. -/
theorem merge_empty_ok : PDFTools.mergePDFs [] = .ok ([], 0) := rfl

/-- C9: pageCount returns the decoded document's page count, and on an
undecodable input returns the sentinel 0 instead of throwing, in
contrast to merge and split, which propagate the same decode failure as
an error. -/
theorem pageCount_soft_fail (file : PDFFile) :
    (∀ doc : List Page, file.load = some doc →
      PDFTools.getPDFPageCount file = doc.length)
    ∧ (file.load = none →
        PDFTools.getPDFPageCount file = 0
        ∧ PDFTools.mergePDFs [file] = .error .loadError
        ∧ ∀ (m : String) (options : PDFTools.SplitOptions),
            PDFTools.splitPDF file m options = .error .loadError) := by
  cases file with
  | ok doc =>
    constructor
    · intro d hd
      obtain rfl : doc = d := Option.some.inj hd
      rfl
    · intro h
      exact absurd h (by simp [PDFFile.load])
  | bad =>
    constructor
    · intro d hd
      exact absurd hd (by simp [PDFFile.load])
    · intro _
      exact ⟨rfl, rfl, fun m options => rfl⟩

/-- Witness for C9 at concrete inputs: a 3-page document counts 3, an
undecodable input counts 0 while merge and split reject it. -/
theorem pageCount_soft_fail_witness :
    PDFTools.getPDFPageCount (.ok [1, 2, 3]) = 3
    ∧ PDFTools.getPDFPageCount .bad = 0
    ∧ PDFTools.mergePDFs [.bad] = .error .loadError
    ∧ PDFTools.splitPDF .bad "all" ⟨none, none, none⟩ = .error .loadError := by
  refine ⟨(pageCount_soft_fail (.ok [1, 2, 3])).1 [1, 2, 3] rfl, ?_, ?_, ?_⟩
  · exact ((pageCount_soft_fail .bad).2 rfl).1
  · exact ((pageCount_soft_fail .bad).2 rfl).2.1
  · exact ((pageCount_soft_fail .bad).2 rfl).2.2 "all" ⟨none, none, none⟩

/-- C3: split with method 'all' on an N-page document returns exactly N
output documents, the k-th being exactly the singleton of source page k,
in page order 1..N. -/
theorem split_all_singletons (doc : List Page) (options : PDFTools.SplitOptions) :
    PDFTools.splitPDF (.ok doc) "all" options =
      .ok ⟨doc.map fun p => [p], doc.length⟩ :=
  PDFTools.splitPDF_all_eq doc options

/-- C2: split with method 'range', when the clamped 1-based start
`max 1 s` does not exceed the clamped 1-based end `min N e`, returns
exactly one output document holding the contiguous source pages from the
clamped start through the clamped end in source order, and that output
has exactly clamped-end − clamped-start + 1 pages. -/
theorem split_range_slice (doc : List Page) (s e : Int)
    (h : max 1 s ≤ min (doc.length : Int) e) :
    PDFTools.splitPDF (.ok doc) "range" ⟨some s, some e, none⟩ =
      .ok ⟨[(doc.drop (max 1 s - 1).toNat).take
              ((min (doc.length : Int) e - max 1 s).toNat + 1)], doc.length⟩
    ∧ ((doc.drop (max 1 s - 1).toNat).take
        ((min (doc.length : Int) e - max 1 s).toNat + 1)).length
      = (min (doc.length : Int) e - max 1 s + 1).toNat := by
  have h1 : max 1 (PDFTools.jsOr (some s) 1) = max 1 s := by
    by_cases hs : s = 0
    · subst hs
      simp [PDFTools.jsOr]
    · simp [PDFTools.jsOr, hs]
  have he : (1 : Int) ≤ min (doc.length : Int) e := le_trans (le_max_left 1 s) h
  have he' : (1 : Int) ≤ e := le_trans he (min_le_right _ _)
  have h2 : PDFTools.jsOr (some e) (doc.length : Int) = e := by
    simp [PDFTools.jsOr]
    omega
  constructor
  · have key := PDFTools.splitPDF_range_eq doc ⟨some s, some e, none⟩
      (by simpa [h1, h2] using h)
    simpa [h1, h2] using key
  · rw [List.length_take, List.length_drop]
    omega

/-- Witness for C2 at a concrete input: pages 2..4 of a 5-page document. -/
theorem split_range_slice_witness :
    PDFTools.splitPDF (.ok [10, 20, 30, 40, 50]) "range" ⟨some 2, some 4, none⟩ =
      .ok ⟨[[20, 30, 40]], 5⟩ :=
  ((split_range_slice [10, 20, 30, 40, 50] 2 4 (by norm_num)).1).trans rfl

/-- C4: on a decodable document, split fails with an InvalidParameter
error in exactly these cases: method 'range' when the clamped start
exceeds the clamped end (invalid range), method 'custom' when the
supplied page list is absent or empty (no pages selected), and any
method other than 'all', 'range', 'custom' (invalid method); each error
aborts the operation with no output files. -/
theorem split_invalid_parameter_iff (doc : List Page) (m : String)
    (options : PDFTools.SplitOptions) :
    (PDFTools.splitPDF (.ok doc) m options = .error .invalidRange ↔
      m = "range" ∧ min (doc.length : Int) (PDFTools.jsOr options.stop doc.length)
        < max 1 (PDFTools.jsOr options.start 1))
    ∧ (PDFTools.splitPDF (.ok doc) m options = .error .noPagesSelected ↔
      m = "custom" ∧ (options.selectedPages = none ∨ options.selectedPages = some []))
    ∧ (PDFTools.splitPDF (.ok doc) m options = .error .invalidMethod ↔
      m ≠ "all" ∧ m ≠ "range" ∧ m ≠ "custom") := by
  by_cases hall : m = "all"
  · subst hall
    have hres := PDFTools.splitPDF_all_eq doc options
    refine ⟨?_, ?_, ?_⟩ <;> simp [hres]
  by_cases hrange : m = "range"
  · subst hrange
    rcases le_or_lt (max 1 (PDFTools.jsOr options.start 1))
        (min (doc.length : Int) (PDFTools.jsOr options.stop doc.length)) with hle | hlt
    · have hres := PDFTools.splitPDF_range_eq doc options hle
      refine ⟨?_, ?_, ?_⟩ <;> simp [hres, not_lt.mpr hle]
    · have hres := PDFTools.splitPDF_of_indices_err doc "range" options _
        (PDFTools.computePageIndices_range_err doc.length options hlt)
      refine ⟨?_, ?_, ?_⟩ <;> simp [hres, hlt]
  by_cases hcustom : m = "custom"
  · subst hcustom
    cases hsel : options.selectedPages with
    | none =>
      have hres := PDFTools.splitPDF_of_indices_err doc "custom" options _
        (PDFTools.computePageIndices_custom_err doc.length options (Or.inl hsel))
      refine ⟨?_, ?_, ?_⟩ <;> simp [hres, hsel]
    | some sel =>
      by_cases hnil : sel = []
      · subst hnil
        have hres := PDFTools.splitPDF_of_indices_err doc "custom" options _
          (PDFTools.computePageIndices_custom_err doc.length options (Or.inr hsel))
        refine ⟨?_, ?_, ?_⟩ <;> simp [hres, hsel]
      · rcases PDFTools.splitPDF_custom_not_param doc options sel hsel hnil
          with hres | ⟨r, hres⟩ <;>
        · refine ⟨?_, ?_, ?_⟩ <;> simp [hres, hsel, hnil]
  · have hres := PDFTools.splitPDF_of_indices_err doc m options _
      (PDFTools.computePageIndices_other doc.length m options hall hrange hcustom)
    refine ⟨?_, ?_, ?_⟩ <;> simp [hres, hall, hrange, hcustom]

/-- Witness for C4 at concrete inputs: each of the three
InvalidParameter failures observed on a 2-page document. -/
theorem split_invalid_parameter_iff_witness :
    PDFTools.splitPDF (.ok [10, 20]) "range" ⟨some 2, some 1, none⟩ = .error .invalidRange
    ∧ PDFTools.splitPDF (.ok [10, 20]) "custom" ⟨none, none, some []⟩ = .error .noPagesSelected
    ∧ PDFTools.splitPDF (.ok [10, 20]) "bogus" ⟨none, none, none⟩ = .error .invalidMethod := by
  refine ⟨?_, ?_, ?_⟩
  · exact (split_invalid_parameter_iff [10, 20] "range" ⟨some 2, some 1, none⟩).1.mpr
      ⟨rfl, by decide⟩
  · exact (split_invalid_parameter_iff [10, 20] "custom" ⟨none, none, some []⟩).2.1.mpr
      ⟨rfl, Or.inr rfl⟩
  · exact (split_invalid_parameter_iff [10, 20] "bogus" ⟨none, none, none⟩).2.2.mpr
      (by refine ⟨by decide, by decide, by decide⟩)

/-- C5: split with method 'custom' on a decodable document and a
non-empty in-bounds 1-based selection returns exactly one output whose
pages are the selected source pages in ascending source order, and the
result is invariant under reordering of the caller's selection. -/
theorem split_custom_sorted (doc : List Page) (sel : List Int) (st sp : Option Int)
    (hne : sel ≠ []) (hb : ∀ p ∈ sel, 1 ≤ p ∧ p ≤ (doc.length : Int)) :
    (∃ out : List Page,
      PDFTools.splitPDF (.ok doc) "custom" ⟨st, sp, some sel⟩ = .ok ⟨[out], doc.length⟩
      ∧ ∃ zs : List Int, zs.Perm (sel.map fun p => p - 1) ∧ List.Sorted (· ≤ ·) zs
          ∧ out = zs.map fun i => doc.getD i.toNat 0)
    ∧ ∀ sel2 : List Int, sel2.Perm sel →
        PDFTools.splitPDF (.ok doc) "custom" ⟨st, sp, some sel2⟩
          = PDFTools.splitPDF (.ok doc) "custom" ⟨st, sp, some sel⟩ := by
  constructor
  · refine ⟨_, PDFTools.splitPDF_custom_eq doc ⟨st, sp, some sel⟩ sel rfl hne hb, ?_⟩
    exact ⟨(sel.map fun p => p - 1).insertionSort (· ≤ ·), List.perm_insertionSort _ _,
      List.sorted_insertionSort _ _, rfl⟩
  · intro sel2 hperm
    have hne2 : sel2 ≠ [] := by
      intro hnil
      subst hnil
      exact hne (List.Perm.eq_nil hperm.symm)
    have hb2 : ∀ p ∈ sel2, 1 ≤ p ∧ p ≤ (doc.length : Int) := fun p hp =>
      hb p (hperm.mem_iff.mp hp)
    rw [PDFTools.splitPDF_custom_eq doc ⟨st, sp, some sel2⟩ sel2 rfl hne2 hb2,
      PDFTools.splitPDF_custom_eq doc ⟨st, sp, some sel⟩ sel rfl hne hb]
    have hs : (sel2.map fun p => p - 1).insertionSort (· ≤ ·)
        = (sel.map fun p => p - 1).insertionSort (· ≤ ·) :=
      List.eq_of_perm_of_sorted
        ((List.perm_insertionSort _ _).trans
          ((hperm.map _).trans (List.perm_insertionSort _ _).symm))
        (List.sorted_insertionSort _ _) (List.sorted_insertionSort _ _)
    rw [hs]

/-- Witness for C5 at a concrete input: selecting pages [3,1,2] of a
3-page document yields its pages in source order 1,2,3. -/
theorem split_custom_sorted_witness :
    PDFTools.splitPDF (.ok [10, 20, 30]) "custom" ⟨none, none, some [3, 1, 2]⟩ =
      .ok ⟨[[10, 20, 30]], 3⟩ := by
  obtain ⟨⟨out, heq, zs, hperm, hsort, hout⟩, -⟩ :=
    split_custom_sorted [10, 20, 30] [3, 1, 2] none none (by decide) (by decide)
  have hzs : zs = [0, 1, 2] :=
    List.eq_of_perm_of_sorted (hperm.trans (by decide)) hsort (by decide)
  subst hzs
  have hout2 : out = [10, 20, 30] := hout.trans (by decide)
  rw [hout2] at heq
  exact heq

/-- Counterexample to C6: with method 'custom' and the duplicated
selection [2,2] on a 2-page document, split computes the page-index
sequence [1,1], whose indices are not unique, and the output document
duplicates source page 2. -/
theorem split_indices_unique_cex :
    PDFTools.computePageIndices 2 "custom" ⟨none, none, some [2, 2]⟩ = .ok [[1, 1]]
    ∧ ¬ ([1, 1] : List Int).Nodup
    ∧ PDFTools.splitPDF (.ok [10, 20]) "custom" ⟨none, none, some [2, 2]⟩ =
        .ok ⟨[[20, 20]], 2⟩ :=
  ⟨rfl, by decide, rfl⟩

/-- C6 amended: every page-index sequence split computes is in
non-decreasing order; the indices are additionally unique for methods
'all' and 'range', and for 'custom' whenever the caller-supplied page
list has no duplicates (the code sorts but does not deduplicate, so a
duplicated selection yields duplicated indices); the number of sequences
is one per page for 'all' and exactly one for 'range' and 'custom'. -/
theorem split_indices_sorted_amended (totalPages : Nat) (m : String)
    (options : PDFTools.SplitOptions) (l : List (List Int))
    (h : PDFTools.computePageIndices totalPages m options = .ok l) :
    (∀ seq ∈ l, List.Sorted (· ≤ ·) seq)
    ∧ (m = "all" → l.length = totalPages ∧ ∀ seq ∈ l, seq.Nodup)
    ∧ (m = "range" → l.length = 1 ∧ ∀ seq ∈ l, seq.Nodup)
    ∧ (m = "custom" → l.length = 1
        ∧ ∀ sel : List Int, options.selectedPages = some sel → sel.Nodup →
            ∀ seq ∈ l, seq.Nodup) := by
  by_cases hall : m = "all"
  · subst hall
    rw [PDFTools.computePageIndices_all] at h
    obtain rfl : (List.range totalPages).map (fun i => [Int.ofNat i]) = l := Except.ok.inj h
    refine ⟨?_, fun _ => ⟨by simp, ?_⟩, fun hm => absurd hm (by decide),
      fun hm => absurd hm (by decide)⟩
    · intro seq hseq
      rcases List.mem_map.mp hseq with ⟨i, -, rfl⟩
      exact List.sorted_singleton _
    · intro seq hseq
      rcases List.mem_map.mp hseq with ⟨i, -, rfl⟩
      exact List.nodup_singleton _
  by_cases hrange : m = "range"
  · subst hrange
    rcases le_or_lt (max 1 (PDFTools.jsOr options.start 1))
        (min (totalPages : Int) (PDFTools.jsOr options.stop totalPages)) with hle | hlt
    · rw [PDFTools.computePageIndices_range_ok totalPages options hle] at h
      obtain rfl := Except.ok.inj h
      have hpl : List.Pairwise (· < ·)
          ((List.range (((min (totalPages : Int) (PDFTools.jsOr options.stop totalPages) - 1)
            - (max 1 (PDFTools.jsOr options.start 1) - 1)).toNat + 1)).map
            fun i => (max 1 (PDFTools.jsOr options.start 1) - 1) + Int.ofNat i) := by
        refine List.Pairwise.map _ ?_ (List.pairwise_lt_range _)
        intro a b hab
        simp only [Int.ofNat_eq_natCast]
        omega
      refine ⟨?_, fun hm => absurd hm (by decide), fun _ => ⟨rfl, ?_⟩,
        fun hm => absurd hm (by decide)⟩
      · intro seq hseq
        have hseq' := List.mem_singleton.mp hseq
        subst hseq'
        exact hpl.imp le_of_lt
      · intro seq hseq
        have hseq' := List.mem_singleton.mp hseq
        subst hseq'
        exact hpl.imp ne_of_lt
    · rw [PDFTools.computePageIndices_range_err totalPages options hlt] at h
      exact absurd h (by simp)
  by_cases hcustom : m = "custom"
  · subst hcustom
    cases hsel : options.selectedPages with
    | none =>
      rw [PDFTools.computePageIndices_custom_err totalPages options (Or.inl hsel)] at h
      exact absurd h (by simp)
    | some sel =>
      by_cases hnil : sel = []
      · subst hnil
        rw [PDFTools.computePageIndices_custom_err totalPages options (Or.inr hsel)] at h
        exact absurd h (by simp)
      · rw [PDFTools.computePageIndices_custom_ok totalPages options sel hsel hnil] at h
        obtain rfl := Except.ok.inj h
        refine ⟨?_, fun hm => absurd hm (by decide), fun hm => absurd hm (by decide),
          fun _ => ⟨rfl, ?_⟩⟩
        · intro seq hseq
          have hseq' := List.mem_singleton.mp hseq
          subst hseq'
          exact List.sorted_insertionSort _ _
        · intro sel2 hsel2 hnd seq hseq
          have hseq' := List.mem_singleton.mp hseq
          subst hseq'
          obtain rfl : sel = sel2 := Option.some.inj hsel2
          have hmap : (sel.map fun p => p - 1).Nodup :=
            hnd.map fun a b hab => by omega
          exact ((List.perm_insertionSort _ _).nodup_iff).mpr hmap
  · rw [PDFTools.computePageIndices_other totalPages m options hall hrange hcustom] at h
    exact absurd h (by simp)

/-- Witness for the amended C6 at a concrete input: splitting a 3-page
document with method 'all' computes three sorted singleton sequences. -/
theorem split_indices_sorted_amended_witness :
    (∀ seq ∈ ([[0], [1], [2]] : List (List Int)), List.Sorted (· ≤ ·) seq)
    ∧ ([[0], [1], [2]] : List (List Int)).length = 3 := by
  have h := split_indices_sorted_amended 3 "all" ⟨none, none, none⟩ [[0], [1], [2]] rfl
  exact ⟨h.1, (h.2.1 rfl).1⟩

/-- C8: web-format conversion re-encodes at the caller-supplied quality
unless lossless is true, in which case the quality argument is ignored
and the maximum quality 1 is used; the output name is the source's base
name with the `.webp` extension; an undecodable source rejects with the
decode error "Failed to load image". -/
theorem convert_webp_spec (file : SrcImage) (quality : ℚ) (lossless : Bool) :
    (∀ w h : Nat, file.surface = some (w, h) →
      ImageTools.convertToWebP file quality lossless =
        .ok ⟨ImageTools.stripExt file.name ++ ".webp", w, h,
             if lossless then 1 else quality, "image/webp"⟩)
    ∧ (file.surface = none →
      ImageTools.convertToWebP file quality lossless = .error "Failed to load image") := by
  obtain ⟨nm, sf⟩ := file
  cases sf with
  | none =>
    exact ⟨fun w h hwh => absurd hwh (by simp), fun _ => rfl⟩
  | some wh =>
    obtain ⟨w0, h0⟩ := wh
    constructor
    · intro w h hwh
      have hp : (w0, h0) = (w, h) := Option.some.inj hwh
      injection hp with hw hh
      subst hw
      subst hh
      rfl
    · intro hnone
      exact absurd hnone (by simp)

/-- Witness for C8 at concrete inputs: lossy and lossless conversion of
a 400×300 image named photo.png, and rejection of an undecodable file. -/
theorem convert_webp_spec_witness :
    ImageTools.convertToWebP ⟨"photo.png", some (400, 300)⟩ (4/5) false =
      .ok ⟨"photo.webp", 400, 300, 4/5, "image/webp"⟩
    ∧ ImageTools.convertToWebP ⟨"photo.png", some (400, 300)⟩ (4/5) true =
      .ok ⟨"photo.webp", 400, 300, 1, "image/webp"⟩
    ∧ ImageTools.convertToWebP ⟨"corrupt.bin", none⟩ (4/5) false =
      .error "Failed to load image" := by
  refine ⟨?_, ?_, ?_⟩
  · exact ((convert_webp_spec ⟨"photo.png", some (400, 300)⟩ (4/5) false).1
      400 300 rfl).trans rfl
  · exact ((convert_webp_spec ⟨"photo.png", some (400, 300)⟩ (4/5) true).1
      400 300 rfl).trans rfl
  · exact (convert_webp_spec ⟨"corrupt.bin", none⟩ (4/5) false).2 rfl

/-- C7: for a decodable W×H image, resize with only a width and
aspect-ratio preservation on yields width tw and height tw·(H/W)
(symmetrically for only a height); with both targets and preservation on
it scales both source dimensions uniformly by min(tw/W, th/H) (fit); with
preservation off the requested dimensions are used verbatim. -/
theorem resize_dimension_math (nm : String) (W H : Nat) (hW : 0 < W) (hH : 0 < H) :
    (∀ tw : ℚ, tw ≠ 0 →
      ImageTools.resizeImage ⟨nm, some (W, H)⟩ (some tw) none true =
        .ok (some tw, some (tw * H / W)))
    ∧ (∀ th : ℚ, th ≠ 0 →
      ImageTools.resizeImage ⟨nm, some (W, H)⟩ none (some th) true =
        .ok (some (th * W / H), some th))
    ∧ (∀ tw th : ℚ, tw ≠ 0 → th ≠ 0 →
      ImageTools.resizeImage ⟨nm, some (W, H)⟩ (some tw) (some th) true =
        .ok (some ((W : ℚ) * min (tw / W) (th / H)),
             some ((H : ℚ) * min (tw / W) (th / H))))
    ∧ (∀ ow oh : Option ℚ,
      ImageTools.resizeImage ⟨nm, some (W, H)⟩ ow oh false = .ok (ow, oh)) := by
  have hW0 : ((W : ℚ)) ≠ 0 := Nat.cast_ne_zero.mpr hW.ne'
  have hH0 : ((H : ℚ)) ≠ 0 := Nat.cast_ne_zero.mpr hH.ne'
  refine ⟨?_, ?_, ?_, ?_⟩
  · intro tw htw
    have ht : ImageTools.truthy (some tw) = true := by
      simp [ImageTools.truthy, htw]
    simp only [ImageTools.resizeImage, ht, ImageTools.truthy, Bool.not_false,
      Bool.and_self, if_true, Option.getD_some]
    rw [if_pos (by simp [htw]), div_div_eq_mul_div]
  · intro th hth
    have ht : ImageTools.truthy (some th) = true := by
      simp [ImageTools.truthy, hth]
    simp only [ImageTools.resizeImage, ht, ImageTools.truthy, Bool.not_false,
      Bool.and_self, if_true, Option.getD_some]
    rw [if_neg (by simp), if_pos (by simp [hth]), ← mul_div_assoc]
  · intro tw th htw hth
    have htw' : ImageTools.truthy (some tw) = true := by
      simp [ImageTools.truthy, htw]
    have hth' : ImageTools.truthy (some th) = true := by
      simp [ImageTools.truthy, hth]
    simp only [ImageTools.resizeImage, htw', hth', Bool.not_true, Bool.and_false,
      Bool.and_self, if_true, Option.getD_some]
    rw [if_neg (by simp), if_neg (by simp)]
  · intro ow oh
    rfl

/-- Witness for C7 at the spec's concrete inputs: 400×300 to width 200
gives 200×150; 400×200 into a 100×100 box gives 100×50 (fit, not
stretch); preservation off passes 123×45 through verbatim. -/
theorem resize_dimension_math_witness :
    ImageTools.resizeImage ⟨"a.png", some (400, 300)⟩ (some 200) none true =
      .ok (some 200, some 150)
    ∧ ImageTools.resizeImage ⟨"b.png", some (400, 200)⟩ (some 100) (some 100) true =
      .ok (some 100, some 50)
    ∧ ImageTools.resizeImage ⟨"c.png", some (400, 300)⟩ (some 123) (some 45) false =
      .ok (some 123, some 45) := by
  refine ⟨?_, ?_, ?_⟩
  · have h := (resize_dimension_math "a.png" 400 300 (by norm_num) (by norm_num)).1
      200 (by norm_num)
    rw [h]
    norm_num
  · have h := (resize_dimension_math "b.png" 400 200 (by norm_num) (by norm_num)).2.2.1
      100 100 (by norm_num) (by norm_num)
    rw [h]
    norm_num
  · exact (resize_dimension_math "c.png" 400 300 (by norm_num) (by norm_num)).2.2.2
      (some 123) (some 45)
